import Mathlib

/-!
Verification of the aidam-memory-plugin core against its specification.

Python strings are modelled as `List Char`; Python integers as `Int`/`Nat`.
Each definition is a shallow embedding of the corresponding function in the
repository (file and symbol named in its doc comment).  ASCII-oriented string
operations (`lower`, `upper`) are modelled on the ASCII range; the SQL keywords
and markers the claims are about are all ASCII.
-/

namespace Aidam

/-- Python strings are lists of characters. -/
abbrev Str := List Char

instance instDecEqExcept {ε α : Type} [DecidableEq ε] [DecidableEq α] :
    DecidableEq (Except ε α) := fun a b =>
  match a, b with
  | Except.ok x, Except.ok y =>
      match decEq x y with
      | isTrue h => isTrue (by rw [h])
      | isFalse h => isFalse (fun hh => h (by injection hh))
  | Except.ok _, Except.error _ => isFalse (fun h => Except.noConfusion h)
  | Except.error _, Except.ok _ => isFalse (fun h => Except.noConfusion h)
  | Except.error e1, Except.error e2 =>
      match decEq e1 e2 with
      | isTrue h => isTrue (by rw [h])
      | isFalse h => isFalse (fun hh => h (by injection hh))

/-- Characters treated as whitespace by Python `str.strip()` / `str.split()`
(CPython `Py_UNICODE_ISSPACE`): space, `\t\n\v\f\r`, `\x1c`-`\x1f`, NEL,
NBSP and the Unicode space separators. -/
def isPySpace (c : Char) : Bool :=
  let n := c.toNat
  n = 32 || (9 ≤ n && n ≤ 13) || (28 ≤ n && n ≤ 31) || n = 133 || n = 160 ||
  n = 5760 || (8192 ≤ n && n ≤ 8202) || n = 8232 || n = 8233 || n = 8239 ||
  n = 8287 || n = 12288

/-- ASCII lowercasing of one character (model of Python `str.lower`). -/
def toLowerC (c : Char) : Char :=
  if 'A' ≤ c && c ≤ 'Z' then Char.ofNat (c.toNat + 32) else c

/-- ASCII uppercasing of one character (model of Python `str.upper`). -/
def toUpperC (c : Char) : Char :=
  if 'a' ≤ c && c ≤ 'z' then Char.ofNat (c.toNat - 32) else c

/-- Model of Python `s.lower()`. -/
def lowerL (l : Str) : Str := l.map toLowerC

/-- Model of Python `s.upper()`. -/
def upperL (l : Str) : Str := l.map toUpperC

/-- Model of Python `s.startswith(p)`. -/
def startsWithL : Str → Str → Bool
  | _, [] => true
  | [], _ :: _ => false
  | c :: s, p :: ps => c = p && startsWithL s ps

/-- Drop leading Python whitespace (the left half of `str.strip()`). -/
def dropLeadingWs (l : Str) : Str := l.dropWhile isPySpace

/-- Drop trailing Python whitespace (the right half of `str.strip()`). -/
def dropTrailingWs (l : Str) : Str := (l.reverse.dropWhile isPySpace).reverse

/-- Model of Python `s.strip()`. -/
def pyStrip (l : Str) : Str := dropTrailingWs (dropLeadingWs l)

/-- First whitespace-delimited token of a string: what Python
`s.strip().split()[0]` extracts (empty when the string is all whitespace). -/
def firstTokenL (l : Str) : Str :=
  (l.dropWhile isPySpace).takeWhile (fun c => !(isPySpace c))

/-- Model of Python `pat in s` (substring containment) for nonempty `pat`. -/
def containsSub (pat : Str) : Str → Bool
  | [] => startsWithL [] pat
  | c :: rest => startsWithL (c :: rest) pat || containsSub pat rest

/-- One step of Python `s.split(pat)`: scanner over fuel (fuel ≥ length of the
string makes it total; each consumed occurrence is nonempty for the patterns
used in this repository). -/
def splitOnGo (pat : Str) : Nat → Str → List Str
  | _, [] => [[]]
  | 0, l => [l]
  | fuel + 1, c :: rest =>
      if startsWithL (c :: rest) pat then
        [] :: splitOnGo pat fuel ((c :: rest).drop pat.length)
      else
        match splitOnGo pat fuel rest with
        | [] => [[c]]
        | h :: t => (c :: h) :: t

/-- Model of Python `s.split(pat)` for a nonempty separator `pat`:
non-overlapping leftmost occurrences. -/
def splitOnL (pat s : Str) : List Str := splitOnGo pat s.length s

/-- Join a list of strings with a separator (model of Python `sep.join`). -/
def joinSep (sep : Str) : List Str → Str
  | [] => []
  | [x] => x
  | x :: y :: t => x ++ sep ++ joinSep sep (y :: t)

/-- Scanner underlying Python `s.replace(pat, rep)` (replaces EVERY
non-overlapping occurrence, left to right); fuel ≥ length makes it total. -/
def replaceAllGo (pat rep : Str) : Nat → Str → Str
  | _, [] => []
  | 0, l => l
  | fuel + 1, c :: rest =>
      if startsWithL (c :: rest) pat then
        rep ++ replaceAllGo pat rep fuel ((c :: rest).drop pat.length)
      else
        c :: replaceAllGo pat rep fuel rest

/-- Model of Python `s.replace(pat, rep)` for nonempty `pat`. -/
def pyReplace (pat rep s : Str) : Str := replaceAllGo pat rep s.length s

/-- The last `n` characters of a string, Python `s[-n:]` for `n ≥ 1`
(the whole string when `n ≥ len(s)`). -/
def lastN (n : Nat) (l : Str) : Str := l.drop (l.length - n)

end Aidam

/-! ## Embedding of `src/mcp/session_controller.py` -/

namespace Aidam.SessionController

/-- `CONTROL_RE = [\x00-\x08\x0e-\x1f]` from session_controller.py:
C0 control characters outside the tab..carriage-return block. -/
def isCtrl (c : Char) : Bool :=
  c.toNat ≤ 8 || (14 ≤ c.toNat && c.toNat ≤ 31)

/-- `CONTROL_RE.sub('', text)`: delete every control character. -/
def controlSub (l : Str) : Str := l.filter (fun c => !(isCtrl c))

def escChar : Char := Char.ofNat 27

def belChar : Char := Char.ofNat 7

/-- `[0-9;]` — CSI parameter characters. -/
def isCsiParam (c : Char) : Bool := ('0' ≤ c && c ≤ '9') || c = ';'

/-- `[a-zA-Z]`. -/
def isAsciiLetter (c : Char) : Bool :=
  ('a' ≤ c && c ≤ 'z') || ('A' ≤ c && c ≤ 'Z')

/-- CSI intermediate bytes: space (0x20) through slash (0x2f). -/
def isCsiInter (c : Char) : Bool := 32 ≤ c.toNat && c.toNat ≤ 47

/-- `[@-~]` — CSI final bytes. -/
def isCsiFinal (c : Char) : Bool := 64 ≤ c.toNat && c.toNat ≤ 126

/-- First alternative of `ANSI_RE` after `ESC[`: `[0-9;]*[a-zA-Z]`.
The two character classes are disjoint, so the greedy star needs no
backtracking.  Returns the number of consumed characters. -/
def matchCsiA1 (l : Str) : Option Nat :=
  let ps := l.takeWhile isCsiParam
  match l.drop ps.length with
  | c :: _ => if isAsciiLetter c then some (ps.length + 1) else none
  | [] => none

/-- Fourth alternative of `ANSI_RE` after `ESC[` (broader CSI): parameter
bytes, then intermediate bytes, then one final byte in `[@-~]`.  All three
classes are pairwise disjoint, so greedy stars need no backtracking. -/
def matchCsiA4 (l : Str) : Option Nat :=
  let ps := l.takeWhile isCsiParam
  let rest1 := l.drop ps.length
  let inter := rest1.takeWhile isCsiInter
  match rest1.drop inter.length with
  | c :: _ =>
      if isCsiFinal c then some (ps.length + inter.length + 1) else none
  | [] => none

/-- Body of the OSC alternative after `ESC]`: non-greedy `.*?(\x07|\x1b\\)`
with DOTALL, i.e. scan to the earliest BEL or ESC-backslash terminator. -/
def matchOscBody : Str → Option Nat
  | [] => none
  | c :: rest =>
      if c = belChar then some 1
      else if c = escChar then
        match rest with
        | d :: _ =>
            if d = '\\' then some 2 else (matchOscBody rest).map (· + 1)
        | [] => none
      else (matchOscBody rest).map (· + 1)

/-- Third alternative of `ANSI_RE` after ESC: `[()][AB012]` (charset select). -/
def matchCharset (l : Str) : Option Nat :=
  match l with
  | a :: b :: _ =>
      if (a = '(' || a = ')') &&
         (b = 'A' || b = 'B' || b = '0' || b = '1' || b = '2')
      then some 2 else none
  | _ => none

/-- The alternation of `ANSI_RE` after the leading ESC, in source order.
The four alternatives have pairwise distinct first characters
(`[`, `]`, `(`/`)`), so dispatching on the first character is equivalent
to Python ordered alternation; for `[` the order CSI-then-broader-CSI is
kept. -/
def matchAnsiTail (l : Str) : Option Nat :=
  match l with
  | '[' :: rest =>
      (match matchCsiA1 rest with
       | some k => some (k + 1)
       | none =>
         match matchCsiA4 rest with
         | some k => some (k + 1)
         | none => none)
  | ']' :: rest => (matchOscBody rest).map (· + 1)
  | _ => matchCharset l

/-- `ANSI_RE.sub('', text)`: left-to-right scan removing each match.  Every
alternative of `ANSI_RE` starts with ESC, so candidate matches begin exactly
at ESC characters.  Fuel (≥ length) makes the recursion structural. -/
def ansiSubGo : Nat → Str → Str
  | 0, l => l
  | _ + 1, [] => []
  | fuel + 1, c :: rest =>
      if c = escChar then
        match matchAnsiTail rest with
        | some k => ansiSubGo fuel (rest.drop k)
        | none => c :: ansiSubGo fuel rest
      else c :: ansiSubGo fuel rest

def ansiSub (l : Str) : Str := ansiSubGo l.length l

/-- `re.sub(r'\n{4,}', '\n\n\n', text)`: a maximal run of `n ≥ 4` newlines is
replaced by 3.  Equivalently (implemented here): delete every newline already
preceded by 3 consecutive newlines; `k` counts the current run. -/
def collapseGo : Nat → Str → Str
  | _, [] => []
  | k, c :: rest =>
      if c = '\n' then
        if 3 ≤ k then collapseGo k rest
        else c :: collapseGo (k + 1) rest
      else c :: collapseGo 0 rest

def collapseNl (l : Str) : Str := collapseGo 0 l

/-- `strip_ansi` (session_controller.py:109-115): ANSI sub, control sub,
blank-line collapse, then `str.strip()`. -/
def stripAnsi (l : Str) : Str :=
  pyStrip (collapseNl (controlSub (ansiSub l)))

def MAX_CHARS_LIMIT : Nat := 20000

def DEFAULT_MAX_CHARS : Nat := 4000

/-- The `text` field computed by `_get_new_output`
(session_controller.py:180-222) from the raw buffer: scrub, cap `max_chars`
to `(0, 20000]`, then (no offset) whole output or its last `max_chars`
characters; with a positive offset, the slice `[offset, offset+max_chars)`. -/
def getNewOutputText (buffer : Str) (maxChars offset : Int) : Str :=
  let cleaned := stripAnsi buffer
  let m1 : Int := if maxChars ≤ 0 then (MAX_CHARS_LIMIT : Int) else maxChars
  let m : Nat := (min m1 (MAX_CHARS_LIMIT : Int)).toNat
  if 0 < offset then (cleaned.drop offset.toNat).take m
  else if cleaned.length ≤ m then cleaned
  else lastN m cleaned

end Aidam.SessionController

/-! ## Properties of the scrubber and of session_read (claims C9, C10) -/

namespace Aidam.SessionController

lemma mem_collapseGo {c : Char} :
    ∀ (l : Str) (k : Nat), c ∈ collapseGo k l → c ∈ l := by
  intro l
  induction l with
  | nil => intro k h; simpa [collapseGo] using h
  | cons d t ih =>
      intro k h
      by_cases hd : d = '\n'
      · by_cases hk : 3 ≤ k
        · simp only [collapseGo, hd, if_pos rfl, if_pos hk] at h
          exact List.mem_cons_of_mem _ (ih k h)
        · simp only [collapseGo, hd, if_pos rfl, if_neg hk] at h
          rcases List.mem_cons.mp h with h | h
          · simp [hd, h]
          · exact List.mem_cons_of_mem _ (ih (k + 1) h)
      · simp only [collapseGo, if_neg hd] at h
        rcases List.mem_cons.mp h with h | h
        · simp [h]
        · exact List.mem_cons_of_mem _ (ih 0 h)

/-- Length of the leading newline run. -/
def leadNl (l : Str) : Nat := (l.takeWhile (fun c => decide (c = '\n'))).length

/-- `true` iff the string contains four consecutive newlines. -/
def hasRun4 : Str → Bool
  | [] => false
  | c :: rest => (decide (c = '\n') && decide (3 ≤ leadNl rest)) || hasRun4 rest

lemma leadNl_cons (c : Char) (t : Str) :
    leadNl (c :: t) = if c = '\n' then leadNl t + 1 else 0 := by
  by_cases h : c = '\n' <;> simp [leadNl, List.takeWhile_cons, h, Nat.add_comm]

lemma collapseGo_bounds :
    ∀ (l : Str) (k : Nat), k ≤ 3 →
      leadNl (collapseGo k l) ≤ 3 - k ∧ hasRun4 (collapseGo k l) = false := by
  intro l
  induction l with
  | nil => intro k _; simp [collapseGo, leadNl, hasRun4]
  | cons c t ih =>
      intro k hk
      by_cases hc : c = '\n'
      · subst hc
        by_cases h3 : 3 ≤ k
        · have hstep : collapseGo k ('\n' :: t) = collapseGo k t := by
            simp [collapseGo, h3]
          rw [hstep]
          exact ih k hk
        · have hstep : collapseGo k ('\n' :: t) = '\n' :: collapseGo (k + 1) t := by
            simp [collapseGo, h3]
          rcases ih (k + 1) (by omega) with ⟨h1, h2⟩
          rw [hstep]
          constructor
          · rw [leadNl_cons]
            simp only [reduceIte]
            omega
          · simp only [hasRun4, h2, Bool.or_false, Bool.and_eq_false_iff,
              decide_eq_false_iff_not]
            right
            omega
      · have hstep : collapseGo k (c :: t) = c :: collapseGo 0 t := by
          simp [collapseGo, hc]
        rcases ih 0 (by omega) with ⟨h1, h2⟩
        rw [hstep]
        constructor
        · rw [leadNl_cons]
          simp only [if_neg hc]
          omega
        · simp only [hasRun4, h2, Bool.or_false, Bool.and_eq_false_iff,
            decide_eq_false_iff_not]
          left
          exact hc

lemma leadNl_le_of_hasRun4_false {l : Str} (h : hasRun4 l = false) :
    leadNl l ≤ 3 := by
  cases l with
  | nil => simp [leadNl]
  | cons c t =>
      rw [leadNl_cons]
      by_cases hc : c = '\n'
      · simp only [hasRun4, hc, decide_True, Bool.true_and, Bool.or_eq_false_iff,
          decide_eq_false_iff_not] at h
        simp only [if_pos hc]
        omega
      · simp [hc]

lemma collapseGo_eq_self :
    ∀ (l : Str) (k : Nat), hasRun4 l = false → leadNl l + k ≤ 3 →
      collapseGo k l = l := by
  intro l
  induction l with
  | nil => intro k _ _; simp [collapseGo]
  | cons c t ih =>
      intro k hrun hlen
      by_cases hc : c = '\n'
      · subst hc
        have hlcons : leadNl ('\n' :: t) = leadNl t + 1 := by
          rw [leadNl_cons, if_pos rfl]
        have h3 : ¬ 3 ≤ k := by omega
        simp only [hasRun4, decide_True, Bool.true_and, Bool.or_eq_false_iff,
          decide_eq_false_iff_not] at hrun
        have hstep : collapseGo k ('\n' :: t) = '\n' :: collapseGo (k + 1) t := by
          simp [collapseGo, h3]
        rw [hstep, ih (k + 1) hrun.2 (by omega)]
      · simp only [hasRun4, Bool.or_eq_false_iff, Bool.and_eq_false_iff] at hrun
        have hstep : collapseGo k (c :: t) = c :: collapseGo 0 t := by
          simp [collapseGo, hc]
        have ht : hasRun4 t = false := hrun.2
        rw [hstep, ih 0 ht (by have := leadNl_le_of_hasRun4_false ht; omega)]

lemma leadNl_le_append (a b : Str) : leadNl a ≤ leadNl (a ++ b) := by
  induction a with
  | nil => simp [leadNl]
  | cons c t ih =>
      rw [List.cons_append, leadNl_cons, leadNl_cons]
      by_cases hc : c = '\n' <;> simp [hc] <;> omega

lemma hasRun4_append_false {a b : Str} (h : hasRun4 (a ++ b) = false) :
    hasRun4 a = false ∧ hasRun4 b = false := by
  induction a with
  | nil => exact ⟨rfl, by simpa using h⟩
  | cons c t ih =>
      rw [List.cons_append] at h
      simp only [hasRun4, Bool.or_eq_false_iff] at h
      rcases h with ⟨h1, h2⟩
      rcases ih h2 with ⟨h3, h4⟩
      refine ⟨?_, h4⟩
      simp only [hasRun4, Bool.or_eq_false_iff]
      refine ⟨?_, h3⟩
      simp only [Bool.and_eq_false_iff, decide_eq_false_iff_not] at h1 ⊢
      rcases h1 with h1 | h1
      · exact Or.inl h1
      · right
        have := leadNl_le_append t b
        omega

lemma dropTrailingWs_decomp (l : Str) :
    l = dropTrailingWs l ++ (l.reverse.takeWhile isPySpace).reverse := by
  have h : (l.reverse.dropWhile isPySpace).reverse ++
      (l.reverse.takeWhile isPySpace).reverse = l := by
    rw [← List.reverse_append, List.takeWhile_append_dropWhile,
      List.reverse_reverse]
  rw [dropTrailingWs]
  exact h.symm

lemma dropLeadingWs_decomp (l : Str) :
    l = l.takeWhile isPySpace ++ dropLeadingWs l := by
  rw [dropLeadingWs, List.takeWhile_append_dropWhile]

lemma dropWhile_self (p : Char → Bool) (l : Str) :
    (l.dropWhile p).dropWhile p = l.dropWhile p := by
  induction l with
  | nil => rfl
  | cons c t ih =>
      by_cases hp : p c
      · simp [List.dropWhile_cons, hp, ih]
      · simp [List.dropWhile_cons, hp]

lemma dropTrailingWs_self (l : Str) :
    dropTrailingWs (dropTrailingWs l) = dropTrailingWs l := by
  simp [dropTrailingWs, List.reverse_reverse, dropWhile_self]

lemma dropLeadingWs_dropTrailingWs_dropLeadingWs (l : Str) :
    dropLeadingWs (dropTrailingWs (dropLeadingWs l)) =
      dropTrailingWs (dropLeadingWs l) := by
  set m := dropLeadingWs l with hm
  have hmfix : m.dropWhile isPySpace = m := by
    rw [hm, dropLeadingWs, dropWhile_self]
  cases hmm : m with
  | nil =>
      rw [hmm] at *
      simp [dropTrailingWs, dropLeadingWs]
  | cons c t =>
      have hc : isPySpace c = false := by
        by_contra hcc
        have hcc2 : isPySpace c = true := by
          cases h : isPySpace c
          · exact absurd h hcc
          · rfl
        rw [hmm, List.dropWhile_cons, hcc2] at hmfix
        have := congrArg List.length hmfix
        have hle := (List.dropWhile_sublist (l := t) isPySpace).length_le
        simp at this
        omega
      have hdec := dropTrailingWs_decomp m
      rw [hmm] at hdec
      cases hd : dropTrailingWs m with
      | nil => rw [hmm] at hd; rw [hd]; simp [dropLeadingWs]
      | cons d r =>
          rw [hmm] at hd
          rw [hd] at hdec
          have hcd : c = d := by
            have := hdec
            rw [List.cons_append] at this
            exact (List.cons.injEq _ _ _ _ ▸ this).1
          rw [hd, dropLeadingWs, List.dropWhile_cons]
          rw [← hcd, hc]
          simp

lemma pyStrip_idem (l : Str) : pyStrip (pyStrip l) = pyStrip l := by
  rw [pyStrip, pyStrip]
  rw [show dropLeadingWs (dropTrailingWs (dropLeadingWs l)) =
      dropTrailingWs (dropLeadingWs l) from
    dropLeadingWs_dropTrailingWs_dropLeadingWs l]
  exact dropTrailingWs_self _

lemma mem_pyStrip {c : Char} {l : Str} (h : c ∈ pyStrip l) : c ∈ l := by
  have h1 : c ∈ dropLeadingWs l := by
    have := dropTrailingWs_decomp (dropLeadingWs l)
    rw [pyStrip] at h
    rw [this]
    exact List.mem_append_left _ h
  have := dropLeadingWs_decomp l
  rw [this]
  exact List.mem_append_right _ h1

lemma hasRun4_pyStrip_false {l : Str} (h : hasRun4 l = false) :
    hasRun4 (pyStrip l) = false := by
  have h1 : hasRun4 (dropLeadingWs l) = false := by
    have hd := dropLeadingWs_decomp l
    exact (hasRun4_append_false (hd ▸ h)).2
  have hd2 := dropTrailingWs_decomp (dropLeadingWs l)
  exact (hasRun4_append_false (hd2 ▸ h1)).1

lemma noCtrl_controlSub (l : Str) : ∀ c ∈ controlSub l, isCtrl c = false := by
  intro c hc
  have := List.mem_filter.mp hc
  simpa using this.2

lemma controlSub_eq_self {l : Str} (h : ∀ c ∈ l, isCtrl c = false) :
    controlSub l = l := by
  induction l with
  | nil => rfl
  | cons c t ih =>
      have hc : isCtrl c = false := h c (List.mem_cons_self c t)
      have ht := ih (fun x hx => h x (List.mem_cons_of_mem c hx))
      simp [controlSub, List.filter_cons, hc] at ht ⊢
      exact ht

lemma ansiSubGo_eq_self (fuel : Nat) :
    ∀ (l : Str), (∀ c ∈ l, c ≠ escChar) → ansiSubGo fuel l = l := by
  induction fuel with
  | zero => intro l _; rfl
  | succ n ih =>
      intro l h
      cases l with
      | nil => rfl
      | cons c t =>
          have hc : c ≠ escChar := h c (List.mem_cons_self c t)
          have ht := ih t (fun x hx => h x (List.mem_cons_of_mem c hx))
          simp [ansiSubGo, hc, ht]

lemma ansiSub_eq_self {l : Str} (h : ∀ c ∈ l, c ≠ escChar) :
    ansiSub l = l := ansiSubGo_eq_self l.length l h

lemma isCtrl_escChar : isCtrl escChar = true := by decide

/-- C10: `strip_ansi` is idempotent — a single pass removes every ESC-led
sequence and every control character outside tab..CR, leaves no run of four
or more newlines and no surrounding whitespace, so a second pass is the
identity on its output. -/
theorem claim10_strip_ansi_idempotent (l : Str) :
    stripAnsi (stripAnsi l) = stripAnsi l := by
  set x : Str := controlSub (ansiSub l) with hx
  have hxctrl : ∀ c ∈ x, isCtrl c = false := noCtrl_controlSub _
  set y : Str := collapseNl x with hy
  have hyctrl : ∀ c ∈ y, isCtrl c = false := by
    intro c hc
    exact hxctrl c (mem_collapseGo x 0 (by simpa [hy, collapseNl] using hc))
  have hyrun : hasRun4 y = false := (collapseGo_bounds x 0 (by omega)).2
  have hz : stripAnsi l = pyStrip y := rfl
  set z : Str := pyStrip y with hzdef
  have hzctrl : ∀ c ∈ z, isCtrl c = false := fun c hc => hyctrl c (mem_pyStrip hc)
  have hzrun : hasRun4 z = false := hasRun4_pyStrip_false hyrun
  have hznoesc : ∀ c ∈ z, c ≠ escChar := by
    intro c hc hcontra
    have := hzctrl c hc
    rw [hcontra, isCtrl_escChar] at this
    exact Bool.true_eq_false ▸ (by simpa using this)
  calc stripAnsi (stripAnsi l)
      = pyStrip (collapseNl (controlSub (ansiSub z))) := by rw [hz]; rfl
    _ = pyStrip (collapseNl (controlSub z)) := by rw [ansiSub_eq_self hznoesc]
    _ = pyStrip (collapseNl z) := by rw [controlSub_eq_self hzctrl]
    _ = pyStrip z := by
          rw [collapseNl, collapseGo_eq_self z 0 hzrun
            (by have := leadNl_le_of_hasRun4_false hzrun; omega)]
    _ = z := by rw [hzdef, pyStrip_idem]
    _ = stripAnsi l := by rw [hz]

/-- C9: with `offset = 0` and a positive requested budget `M`, the text
returned by `_get_new_output` has at most `min M 20000` characters, and when
the scrubbed buffer is longer than that bound the result is exactly its
suffix of that length. -/
theorem claim9_session_read_suffix (buffer : Str) (M : Int) (hM : 0 < M) :
    (getNewOutputText buffer M 0).length ≤ min M.toNat MAX_CHARS_LIMIT ∧
      (min M.toNat MAX_CHARS_LIMIT < (stripAnsi buffer).length →
        (getNewOutputText buffer M 0).length = min M.toNat MAX_CHARS_LIMIT ∧
          ∃ pre, stripAnsi buffer = pre ++ getNewOutputText buffer M 0) := by
  have hMle : ¬ M ≤ 0 := by omega
  have hmeq : (min M (MAX_CHARS_LIMIT : Int)).toNat = min M.toNat MAX_CHARS_LIMIT := by
    rw [MAX_CHARS_LIMIT]; omega
  set cleaned := stripAnsi buffer with hc
  set b := min M.toNat MAX_CHARS_LIMIT with hb
  have hout : getNewOutputText buffer M 0 =
      if cleaned.length ≤ b then cleaned else lastN b cleaned := by
    rw [getNewOutputText]
    simp only [if_neg hMle, hmeq, ← hc, ← hb]
    rw [if_neg (by omega : ¬ (0:Int) < 0)]
  by_cases hlen : cleaned.length ≤ b
  · rw [hout, if_pos hlen]
    exact ⟨hlen, fun hcon => absurd hcon (by omega)⟩
  · rw [hout, if_neg hlen]
    have hlb : b ≤ cleaned.length := by omega
    have hlast : (lastN b cleaned).length = b := by
      rw [lastN, List.length_drop]; omega
    refine ⟨by omega, fun _ => ⟨hlast, ?_⟩⟩
    exact ⟨cleaned.take (cleaned.length - b), (List.take_append_drop _ _).symm⟩

/-- Witness for C9 at buffer `"abcdef"` and `M = 3`. -/
theorem claim9_session_read_suffix_witness :
    (0 : Int) < 3 ∧
      ((getNewOutputText ("abcdef".toList) 3 0).length ≤
          min (Int.toNat 3) MAX_CHARS_LIMIT ∧
        (min (Int.toNat 3) MAX_CHARS_LIMIT <
            (stripAnsi ("abcdef".toList)).length →
          (getNewOutputText ("abcdef".toList) 3 0).length =
              min (Int.toNat 3) MAX_CHARS_LIMIT ∧
            ∃ pre, stripAnsi ("abcdef".toList) =
              pre ++ getNewOutputText ("abcdef".toList) 3 0)) :=
  ⟨by decide, claim9_session_read_suffix ("abcdef".toList) 3 (by decide)⟩

end Aidam.SessionController

/-! ## Embedding of `src/mcp/memory_pg.py`: statement guards (claim C7) -/

namespace Aidam.MemoryPg

/-- Guard of `select_query` (memory_pg.py:425-430):
`sql.strip().lower().startswith('select')`. -/
def selectQueryAllowed (sql : Str) : Bool :=
  startsWithL (lowerL (pyStrip sql)) ("select".toList)

/-- `select_query`: raises `ValueError` — before any database access — unless
the guard holds; `.ok` stands for executing the query. -/
def selectQuery (sql : Str) : Except Unit Unit :=
  if selectQueryAllowed sql then Except.ok () else Except.error ()

/-- Guard of `execute_write` (memory_pg.py:433-447):
`sql.strip().upper()` starts with `UPDATE`, `INSERT` or `DELETE`. -/
def executeWriteAllowed (sql : Str) : Bool :=
  startsWithL (upperL (pyStrip sql)) ("UPDATE".toList) ||
    startsWithL (upperL (pyStrip sql)) ("INSERT".toList) ||
    startsWithL (upperL (pyStrip sql)) ("DELETE".toList)

/-- `execute_write`: raises `ValueError` — before any database access —
unless the guard holds; `.ok` stands for executing the statement. -/
def executeWrite (sql : Str) : Except Unit Unit :=
  if executeWriteAllowed sql then Except.ok () else Except.error ()

lemma uppercase_not_space {c : Char} (h : ('A' ≤ c && c ≤ 'Z') = true) :
    isPySpace c = false := by
  simp only [Bool.and_eq_true, decide_eq_true_eq, Char.le_def] at h
  have h1 : 65 ≤ c.toNat := h.1
  have h2 : c.toNat ≤ 90 := h.2
  simp only [isPySpace, Bool.or_eq_false_iff, Bool.and_eq_false_iff,
    decide_eq_false_iff_not]
  omega

lemma lowercase_not_space {c : Char} (h : ('a' ≤ c && c ≤ 'z') = true) :
    isPySpace c = false := by
  simp only [Bool.and_eq_true, decide_eq_true_eq, Char.le_def] at h
  have h1 : 97 ≤ c.toNat := h.1
  have h2 : c.toNat ≤ 122 := h.2
  simp only [isPySpace, Bool.or_eq_false_iff, Bool.and_eq_false_iff,
    decide_eq_false_iff_not]
  omega

lemma toLowerC_of_space {c : Char} (h : isPySpace c = true) : toLowerC c = c := by
  rw [toLowerC]
  by_cases hc : ('A' ≤ c && c ≤ 'Z') = true
  · rw [uppercase_not_space hc] at h; exact absurd h (by simp)
  · rw [if_neg hc]

lemma toUpperC_of_space {c : Char} (h : isPySpace c = true) : toUpperC c = c := by
  rw [toUpperC]
  by_cases hc : ('a' ≤ c && c ≤ 'z') = true
  · rw [lowercase_not_space hc] at h; exact absurd h (by simp)
  · rw [if_neg hc]

lemma dropWhile_append_singleton {p : Char → Bool} {c : Char}
    (hc : p c = false) (xs : Str) :
    (xs ++ [c]).dropWhile p = xs.dropWhile p ++ [c] := by
  induction xs with
  | nil => simp [List.dropWhile_cons, hc]
  | cons x t ih =>
      by_cases hx : p x = true
      · simp [List.dropWhile_cons, hx, ih]
      · simp only [Bool.not_eq_true] at hx
        simp [List.dropWhile_cons, hx]

lemma dropTrailingWs_cons_of_nonspace {c : Char} (hc : isPySpace c = false)
    (t : Str) : dropTrailingWs (c :: t) = c :: dropTrailingWs t := by
  rw [dropTrailingWs, dropTrailingWs, List.reverse_cons,
    dropWhile_append_singleton hc, List.reverse_append]
  rfl

lemma dropTrailingWs_shape (c : Char) (t : Str) :
    dropTrailingWs (c :: t) = [] ∨
      ∃ r, dropTrailingWs (c :: t) = c :: r := by
  have hdec := SessionController.dropTrailingWs_decomp (c :: t)
  cases hd : dropTrailingWs (c :: t) with
  | nil => exact Or.inl rfl
  | cons d r =>
      right
      refine ⟨r, ?_⟩
      rw [hd, List.cons_append] at hdec
      injection hdec with h1 _
      rw [h1]

/-- Comparing a whitespace-free pattern against the stripped statement is the
same as comparing it against the first whitespace-delimited token, pointwise
through a character map that fixes whitespace (`lower`/`upper`). -/
lemma startsWith_dropTrailing_takeWhile (f : Char → Char)
    (hf : ∀ c, isPySpace c = true → f c = c) :
    ∀ (d w : Str), (∀ a ∈ w, isPySpace a = false) →
      startsWithL ((dropTrailingWs d).map f) w =
        startsWithL ((d.takeWhile (fun c => !(isPySpace c))).map f) w := by
  intro d
  induction d with
  | nil => intro w _; rfl
  | cons c t ih =>
      intro w hw
      cases w with
      | nil => simp [startsWithL]
      | cons a w2 =>
          by_cases hc : isPySpace c = true
          · have htake : (c :: t).takeWhile (fun c => !(isPySpace c)) = [] := by
              simp [List.takeWhile_cons, hc]
            rw [htake]
            rcases dropTrailingWs_shape c t with hsh | ⟨r, hsh⟩
            · rw [hsh]
            · rw [hsh]
              have hca : ¬ (f c = a) := by
                intro hfc
                have : isPySpace a = false := hw a (List.mem_cons_self a w2)
                rw [hf c hc] at hfc
                rw [hfc] at hc
                rw [this] at hc
                exact Bool.false_ne_true hc
              simp [startsWithL, hca]
          · simp only [Bool.not_eq_true] at hc
            have htake : (c :: t).takeWhile (fun c => !(isPySpace c)) =
                c :: t.takeWhile (fun c => !(isPySpace c)) := by
              simp [List.takeWhile_cons, hc]
            rw [htake, dropTrailingWs_cons_of_nonspace hc, List.map_cons,
              List.map_cons]
            simp only [startsWithL]
            rw [ih w2 (fun a ha => hw a (List.mem_cons_of_mem _ ha))]

lemma startsWith_strip_eq_token (f : Char → Char)
    (hf : ∀ c, isPySpace c = true → f c = c)
    (w : Str) (hw : ∀ a ∈ w, isPySpace a = false) (s : Str) :
    startsWithL ((pyStrip s).map f) w = startsWithL ((firstTokenL s).map f) w := by
  rw [pyStrip, firstTokenL, dropLeadingWs]
  exact startsWith_dropTrailing_takeWhile f hf (s.dropWhile isPySpace) w hw

/-- C7 counterexample: for `"selected 1"` the first non-space token is
`selected`, not `select`, yet `select_query` does not raise — the guard is a
prefix test, so the claimed equivalence fails at this input. -/
theorem claim7_counterexample :
    ¬ (((selectQuery ("selected 1".toList)).isOk = false) ↔
        lowerL (firstTokenL ("selected 1".toList)) ≠ ("select".toList)) := by
  decide

/-- C7 amended: `selectQuery` raises (and executes nothing) iff the first
non-space token does not START WITH `select` (case-insensitive), and
`executeWrite` raises iff the first non-space token does not start with any of
`UPDATE`, `INSERT`, `DELETE` (case-insensitive) — a prefix test on the token,
not an equality test. -/
theorem claim7_guard_is_token_prefix_test (sql : Str) :
    ((selectQuery sql).isOk = false ↔
      startsWithL (lowerL (firstTokenL sql)) ("select".toList) = false) ∧
    ((executeWrite sql).isOk = false ↔
      (startsWithL (upperL (firstTokenL sql)) ("UPDATE".toList) ||
        startsWithL (upperL (firstTokenL sql)) ("INSERT".toList) ||
        startsWithL (upperL (firstTokenL sql)) ("DELETE".toList)) = false) := by
  have hsel := startsWith_strip_eq_token toLowerC (fun c hc => toLowerC_of_space hc)
    ("select".toList) (by decide) sql
  have hupd := startsWith_strip_eq_token toUpperC (fun c hc => toUpperC_of_space hc)
    ("UPDATE".toList) (by decide) sql
  have hins := startsWith_strip_eq_token toUpperC (fun c hc => toUpperC_of_space hc)
    ("INSERT".toList) (by decide) sql
  have hdel := startsWith_strip_eq_token toUpperC (fun c hc => toUpperC_of_space hc)
    ("DELETE".toList) (by decide) sql
  constructor
  · rw [selectQuery, selectQueryAllowed]
    rw [show lowerL (pyStrip sql) = (pyStrip sql).map toLowerC from rfl, hsel]
    rw [show (firstTokenL sql).map toLowerC = lowerL (firstTokenL sql) from rfl]
    cases h : startsWithL (lowerL (firstTokenL sql)) ("select".toList) <;>
      simp [h, Except.isOk, Except.toBool]
  · rw [executeWrite, executeWriteAllowed]
    rw [show upperL (pyStrip sql) = (pyStrip sql).map toUpperC from rfl,
      hupd, hins, hdel]
    rw [show (firstTokenL sql).map toUpperC = upperL (firstTokenL sql) from rfl]
    cases h1 : startsWithL (upperL (firstTokenL sql)) ("UPDATE".toList) <;>
      cases h2 : startsWithL (upperL (firstTokenL sql)) ("INSERT".toList) <;>
        cases h3 : startsWithL (upperL (firstTokenL sql)) ("DELETE".toList) <;>
          simp [h1, h2, h3, Except.isOk, Except.toBool]

end Aidam.MemoryPg

/-! ## Python `str.replace` rewrites every occurrence (claim C6) -/

namespace Aidam

lemma splitOnGo_ne_nil (pat : Str) :
    ∀ (fuel : Nat) (l : Str), splitOnGo pat fuel l ≠ [] := by
  intro fuel l
  induction fuel generalizing l with
  | zero => cases l <;> simp [splitOnGo]
  | succ n ih =>
      cases l with
      | nil => simp [splitOnGo]
      | cons c t =>
          by_cases hs : startsWithL (c :: t) pat = true
          · simp [splitOnGo, hs]
          · simp only [Bool.not_eq_true] at hs
            simp only [splitOnGo, hs, Bool.false_eq_true, if_false]
            cases hsp : splitOnGo pat n t <;> simp

lemma joinSep_cons_cons (sep : Str) (c : Char) (h : Str) (t : List Str) :
    joinSep sep ((c :: h) :: t) = c :: joinSep sep (h :: t) := by
  cases t <;> simp [joinSep]

lemma replaceAllGo_eq_joinSep (pat rep : Str) :
    ∀ (fuel : Nat) (l : Str),
      replaceAllGo pat rep fuel l = joinSep rep (splitOnGo pat fuel l) := by
  intro fuel
  induction fuel with
  | zero =>
      intro l
      cases l <;> simp [replaceAllGo, splitOnGo, joinSep]
  | succ n ih =>
      intro l
      cases l with
      | nil => simp [replaceAllGo, splitOnGo, joinSep]
      | cons c t =>
          by_cases hs : startsWithL (c :: t) pat = true
          · obtain ⟨h, t2, hsp⟩ :=
              List.exists_cons_of_ne_nil
                (splitOnGo_ne_nil pat n ((c :: t).drop pat.length))
            simp only [replaceAllGo, splitOnGo, hs, if_true, hsp, ih]
            simp [joinSep]
          · obtain ⟨h, t2, hsp⟩ :=
              List.exists_cons_of_ne_nil (splitOnGo_ne_nil pat n t)
            simp only [Bool.not_eq_true] at hs
            simp only [replaceAllGo, splitOnGo, hs, Bool.false_eq_true, if_false]
            rw [hsp, joinSep_cons_cons, ← hsp, ih]

/-- Python `s.replace(pat, rep)` splits on every non-overlapping occurrence
of `pat` and rejoins with `rep`: every occurrence is rewritten. -/
lemma pyReplace_eq_joinSep (pat rep s : Str) :
    pyReplace pat rep s = joinSep rep (splitOnL pat s) :=
  replaceAllGo_eq_joinSep pat rep s.length s

end Aidam

/-! ## Embedding of `src/scripts/on_prompt_submit.py`: result merging -/

namespace Aidam.OnPromptSubmit

def MEMORY_HEADER : Str := "=== MEMORY CONTEXT ===".toList

def ADDITIONAL_HEADER : Str := "=== ADDITIONAL CONTEXT ===".toList

/-- `_merge_results` (on_prompt_submit.py:44-53): one result is returned
verbatim; otherwise each further result is appended after a blank line with
`extra.replace("=== MEMORY CONTEXT ===", "=== ADDITIONAL CONTEXT ===")`
(Python `str.replace`: every occurrence).  The same merge appears in
aidam_mcp_server.py:361-368. -/
def mergeResults (results : List Str) : Str :=
  match results with
  | [] => []
  | first :: rest =>
      if rest.length = 0 then first
      else rest.foldl
        (fun merged extra =>
          merged ++ '\n' :: '\n' ::
            pyReplace MEMORY_HEADER ADDITIONAL_HEADER extra)
        first

/-- Modelled from the claim wording of C6: replace only the FIRST occurrence
of `pat` (what the claim asserts `_merge_results` does to the second result). -/
def replaceFirstGo (pat rep : Str) : Nat → Str → Str
  | _, [] => []
  | 0, l => l
  | fuel + 1, c :: rest =>
      if startsWithL (c :: rest) pat then rep ++ (c :: rest).drop pat.length
      else c :: replaceFirstGo pat rep fuel rest

/-- Modelled from the claim wording of C6 (first occurrence only). -/
def replaceFirstL (pat rep s : Str) : Str := replaceFirstGo pat rep s.length s

/-- A second retriever result that contains the memory header twice. -/
def dupHeaderSample : Str :=
  MEMORY_HEADER ++ '\n' :: 'x' :: '\n' :: MEMORY_HEADER

/-- C6 counterexample: when the later result contains the header twice, the
merged output of `_merge_results` differs from "first occurrence replaced" —
the code rewrites both occurrences. -/
theorem claim6_counterexample :
    mergeResults [['a'], dupHeaderSample] ≠
      'a' :: '\n' :: '\n' ::
        replaceFirstL MEMORY_HEADER ADDITIONAL_HEADER dupHeaderSample := by
  decide

/-- C6 amended: one collected result is returned verbatim; with two results
the coordinator returns `r1 ++ "\n\n" ++ r2'` where `r2'` rewrites EVERY
occurrence of `"=== MEMORY CONTEXT ==="` in `r2` to
`"=== ADDITIONAL CONTEXT ==="` (split on the header, rejoin with the
replacement). -/
theorem claim6_merge_rewrites_every_header (r1 r2 : Str) :
    mergeResults [r1] = r1 ∧
      mergeResults [r1, r2] =
        r1 ++ '\n' :: '\n' ::
          joinSep ADDITIONAL_HEADER (splitOnL MEMORY_HEADER r2) := by
  constructor
  · simp [mergeResults]
  · simp [mergeResults, List.foldl, pyReplace_eq_joinSep]

end Aidam.OnPromptSubmit

/-! ## Embedding of `src/mcp/memory_pg.py`: scoped migrations (claim C4) -/

namespace Aidam.MemoryPg

/-- `ALLOWED_MIGRATION_TABLES` (memory_pg.py:454-466). -/
def ALLOWED_MIGRATION_TABLES : List Str :=
  ["learnings", "patterns", "errors_solutions", "knowledge_details", "tools",
   "commands", "projects", "sessions", "user_preferences", "memory_meta",
   "memory_associations"].map String.toList

/-- The forbidden phrases scanned as substrings of the lowercased SQL
(memory_pg.py:478-484). -/
def FORBIDDEN_PHRASES : List Str :=
  ["drop database", "truncate", "alter system", "create extension",
   "drop extension"].map String.toList

/-- The DDL phrases whose following token must be declared
(memory_pg.py:490). -/
def DDL_PHRASES : List Str :=
  ["alter table", "create table", "drop table"].map String.toList

/-- How `_assert_scoped_tables` fails: `ValueError` (the ValidationError of
the spec), or an uncaught `IndexError` from `part.strip().split()[0]` when
only whitespace follows a phrase occurrence. -/
inductive MigError where
  | validation : MigError
  | indexCrash : MigError
deriving DecidableEq

/-- `part.strip().split()[0]`: the first whitespace-delimited token; `none`
models the `IndexError` on a whitespace-only part. -/
def firstTokenOpt (l : Str) : Option Str :=
  if firstTokenL l = [] then none else some (firstTokenL l)

/-- The inner loop of `_assert_scoped_tables` (memory_pg.py:492-495) over the
parts following each occurrence of one phrase: `name = part.strip().split()[0];
if name not in tables: raise ValueError(...)`. -/
def checkParts (tables : List Str) : List Str → Except MigError Unit
  | [] => Except.ok ()
  | p :: rest =>
      match firstTokenOpt p with
      | none => Except.error MigError.indexCrash
      | some nm =>
          if tables.contains nm then checkParts tables rest
          else Except.error MigError.validation

/-- One phrase of the guard (memory_pg.py:490-492):
`if token in sql_lower: for part in sql_lower.split(token)[1:]: ...`. -/
def checkPhrase (tables : List Str) (sqlLower tok : Str) :
    Except MigError Unit :=
  if containsSub tok sqlLower then
    checkParts tables ((splitOnL tok sqlLower).drop 1)
  else Except.ok ()

/-- The outer loop over the three DDL phrases, stopping at the first raise. -/
def checkPhrases (tables : List Str) (sqlLower : Str) :
    List Str → Except MigError Unit
  | [] => Except.ok ()
  | tok :: rest =>
      match checkPhrase tables sqlLower tok with
      | Except.ok () => checkPhrases tables sqlLower rest
      | Except.error e => Except.error e

/-- `_assert_scoped_tables(tables, sql)` (memory_pg.py:469-495): empty
declaration, non-whitelisted table, forbidden substring, then the per-phrase
token scan, raising at the first violation. -/
def assertScopedTables (tables : List Str) (sql : Str) : Except MigError Unit :=
  if tables.length = 0 then Except.error MigError.validation
  else if tables.any (fun t => !(ALLOWED_MIGRATION_TABLES.contains t)) then
    Except.error MigError.validation
  else if FORBIDDEN_PHRASES.any (fun w => containsSub w (lowerL sql)) then
    Except.error MigError.validation
  else checkPhrases tables (lowerL sql) DDL_PHRASES

/-- `execute_scoped_migration` (memory_pg.py:498-513): validate, then run the
SQL in a single transaction; `.ok` stands for the committed execution. -/
def executeScopedMigration (tables : List Str) (sql : Str) :
    Except MigError Unit :=
  assertScopedTables tables sql

/-- Modelled from the claim wording of C4: SQL identifier characters. -/
def isSqlIdentChar (c : Char) : Bool :=
  ('a' ≤ c && c ≤ 'z') || ('A' ≤ c && c ≤ 'Z') || ('0' ≤ c && c ≤ '9') ||
    c = '_' || c = '$'

/-- Modelled from the claim wording of C4: the identifier immediately
following a phrase occurrence (whitespace skipped). -/
def identAfter (part : Str) : Str :=
  (part.dropWhile isPySpace).takeWhile isSqlIdentChar

/-- Modelled from the claim wording of C4: the claimed characterization of
when a scoped migration is rejected. -/
def claimedMigrationFailure (tables : List Str) (sql : Str) : Bool :=
  tables.length = 0 ||
    tables.any (fun t => !(ALLOWED_MIGRATION_TABLES.contains t)) ||
    FORBIDDEN_PHRASES.any (fun w => containsSub w (lowerL sql)) ||
    DDL_PHRASES.any (fun tok =>
      ((splitOnL tok (lowerL sql)).drop 1).any
        (fun part => !(tables.contains (identAfter part))))

/-- C4 counterexample: `create table learnings(id int)` with declared table
`learnings`.  The identifier following `CREATE TABLE` is `learnings`, which is
declared, so the claim says validation passes; the code extracts the
whitespace-delimited token `learnings(id` and raises ValidationError. -/
theorem claim4_counterexample :
    executeScopedMigration [("learnings".toList)]
        ("create table learnings(id int)".toList) =
      Except.error MigError.validation ∧
    claimedMigrationFailure [("learnings".toList)]
        ("create table learnings(id int)".toList) = false := by
  decide

lemma splitOnGo_of_not_contains (pat : Str) :
    ∀ (fuel : Nat) (l : Str), containsSub pat l = false →
      splitOnGo pat fuel l = [l] := by
  intro fuel
  induction fuel with
  | zero => intro l _; cases l <;> rfl
  | succ n ih =>
      intro l hl
      cases l with
      | nil => rfl
      | cons c t =>
          simp only [containsSub, Bool.or_eq_false_iff] at hl
          simp only [splitOnGo, hl.1, Bool.false_eq_true, if_false, ih t hl.2]

lemma checkParts_no_crash {tables : List Str} :
    ∀ (parts : List Str), (∀ p ∈ parts, firstTokenL p ≠ []) →
      checkParts tables parts ≠ Except.error MigError.indexCrash := by
  intro parts
  induction parts with
  | nil => intro _ h; exact absurd h (by simp [checkParts])
  | cons p rest ih =>
      intro hp
      have hp0 : firstTokenL p ≠ [] := hp p (List.mem_cons_self p rest)
      simp only [checkParts, firstTokenOpt, if_neg hp0]
      by_cases hm : firstTokenL p ∈ tables
      · rw [if_pos (by simpa using hm)]
        exact ih (fun q hq => hp q (List.mem_cons_of_mem p hq))
      · rw [if_neg (by simpa using hm)]
        simp

lemma checkParts_error_iff {tables : List Str} :
    ∀ (parts : List Str), (∀ p ∈ parts, firstTokenL p ≠ []) →
      (checkParts tables parts = Except.error MigError.validation ↔
        ∃ p ∈ parts, firstTokenL p ∉ tables) := by
  intro parts
  induction parts with
  | nil => intro _; simp [checkParts]
  | cons p rest ih =>
      intro hp
      have hp0 : firstTokenL p ≠ [] := hp p (List.mem_cons_self p rest)
      simp only [checkParts, firstTokenOpt, if_neg hp0]
      by_cases hm : firstTokenL p ∈ tables
      · rw [if_pos (by simpa using hm)]
        rw [ih (fun q hq => hp q (List.mem_cons_of_mem p hq))]
        constructor
        · rintro ⟨q, hq, hqc⟩; exact ⟨q, List.mem_cons_of_mem p hq, hqc⟩
        · rintro ⟨q, hq, hqc⟩
          rcases List.mem_cons.mp hq with rfl | hq2
          · exact absurd hm hqc
          · exact ⟨q, hq2, hqc⟩
      · rw [if_neg (by simpa using hm)]
        constructor
        · intro _; exact ⟨p, List.mem_cons_self p rest, hm⟩
        · intro _; rfl

lemma checkPhrase_no_crash {tables : List Str} {sqlLower tok : Str}
    (hp : ∀ part ∈ (splitOnL tok sqlLower).drop 1, firstTokenL part ≠ []) :
    checkPhrase tables sqlLower tok ≠ Except.error MigError.indexCrash := by
  rw [checkPhrase]
  by_cases hc : containsSub tok sqlLower = true
  · simp only [hc, if_true]
    exact checkParts_no_crash _ hp
  · simp only [Bool.not_eq_true] at hc
    simp [hc]

lemma checkPhrase_error_iff {tables : List Str} {sqlLower tok : Str}
    (hp : ∀ part ∈ (splitOnL tok sqlLower).drop 1, firstTokenL part ≠ []) :
    (checkPhrase tables sqlLower tok = Except.error MigError.validation ↔
      ∃ part ∈ (splitOnL tok sqlLower).drop 1,
        firstTokenL part ∉ tables) := by
  rw [checkPhrase]
  by_cases hc : containsSub tok sqlLower = true
  · simp only [hc, if_true]
    exact checkParts_error_iff _ hp
  · simp only [Bool.not_eq_true] at hc
    have hsp : splitOnL tok sqlLower = [sqlLower] :=
      splitOnGo_of_not_contains tok sqlLower.length sqlLower hc
    simp [hc, hsp]

lemma checkPhrases_error_iff {tables : List Str} {sqlLower : Str} :
    ∀ (phrases : List Str),
      (∀ tok ∈ phrases, ∀ part ∈ (splitOnL tok sqlLower).drop 1,
        firstTokenL part ≠ []) →
      (checkPhrases tables sqlLower phrases = Except.error MigError.validation ↔
        ∃ tok ∈ phrases, ∃ part ∈ (splitOnL tok sqlLower).drop 1,
          firstTokenL part ∉ tables) := by
  intro phrases
  induction phrases with
  | nil => intro _; simp [checkPhrases]
  | cons tok rest ih =>
      intro hp
      have hp0 := hp tok (List.mem_cons_self tok rest)
      have hprest := fun t ht => hp t (List.mem_cons_of_mem tok ht)
      rw [checkPhrases]
      cases hres : checkPhrase tables sqlLower tok with
      | ok u =>
          cases u
          rw [ih hprest]
          constructor
          · rintro ⟨t, ht, hpart⟩; exact ⟨t, List.mem_cons_of_mem tok ht, hpart⟩
          · rintro ⟨t, ht, hpart⟩
            rcases List.mem_cons.mp ht with rfl | ht2
            · exfalso
              have := (checkPhrase_error_iff hp0).mpr hpart
              rw [hres] at this
              exact Except.noConfusion this
            · exact ⟨t, ht2, hpart⟩
      | error e =>
          cases e with
          | validation =>
              simp only [true_iff]
              refine ⟨tok, List.mem_cons_self tok rest, ?_⟩
              exact (checkPhrase_error_iff hp0).mp hres
          | indexCrash => exact absurd hres (checkPhrase_no_crash hp0)

/-- C4 amended: provided each occurrence of a DDL phrase is followed by at
least one further whitespace-delimited token, a scoped migration is rejected
with ValidationError if and only if the declared table list is empty, a
declared table is outside the whitelist, the lowercased SQL contains a
forbidden phrase as a substring, or the first whitespace-delimited TOKEN
(which may carry attached punctuation such as `learnings(id`) following some
occurrence of `alter table`/`create table`/`drop table` is not among the
declared tables; otherwise the SQL is executed in a single transaction. -/
theorem claim4_migration_guard (tables : List Str) (sql : Str)
    (hp : ∀ tok ∈ DDL_PHRASES, ∀ part ∈ (splitOnL tok (lowerL sql)).drop 1,
      firstTokenL part ≠ []) :
    executeScopedMigration tables sql = Except.error MigError.validation ↔
      (tables.length = 0 ∨
        (∃ t ∈ tables, t ∉ ALLOWED_MIGRATION_TABLES) ∨
        (∃ w ∈ FORBIDDEN_PHRASES, containsSub w (lowerL sql) = true) ∨
        (∃ tok ∈ DDL_PHRASES, ∃ part ∈ (splitOnL tok (lowerL sql)).drop 1,
          firstTokenL part ∉ tables)) := by
  rw [executeScopedMigration, assertScopedTables]
  by_cases h0 : tables.length = 0
  · simp [h0]
  · rw [if_neg h0]
    by_cases h1 : tables.any (fun t => !(ALLOWED_MIGRATION_TABLES.contains t)) = true
    · rw [if_pos h1]
      simp only [true_iff]
      right; left
      rcases List.any_eq_true.mp h1 with ⟨t, ht, htc⟩
      exact ⟨t, ht, by simpa using htc⟩
    · simp only [Bool.not_eq_true] at h1
      rw [if_neg (by rw [h1]; exact Bool.false_ne_true)]
      by_cases h2 : FORBIDDEN_PHRASES.any (fun w => containsSub w (lowerL sql)) = true
      · rw [if_pos h2]
        simp only [true_iff]
        right; right; left
        exact List.any_eq_true.mp h2
      · simp only [Bool.not_eq_true] at h2
        rw [if_neg (by rw [h2]; exact Bool.false_ne_true)]
        rw [checkPhrases_error_iff DDL_PHRASES hp]
        constructor
        · intro h; exact Or.inr (Or.inr (Or.inr h))
        · intro h
          rcases h with h | h | h | h
          · exact absurd h h0
          · exfalso
            rcases h with ⟨t, ht, htc⟩
            have hany := List.any_eq_false.mp h1 t ht
            simp only [Bool.not_eq_true', Bool.not_eq_false] at hany
            exact htc (by simpa using hany)
          · exfalso
            rcases h with ⟨w, hw, hwc⟩
            have hany := List.any_eq_false.mp h2 w hw
            rw [hwc] at hany
            exact hany rfl
          · exact h

/-- Witness for C4 amended at `alter table learnings add column note text`
with declared tables `[learnings]`: the side condition holds and the
migration is accepted. -/
theorem claim4_migration_guard_witness :
    (∀ tok ∈ DDL_PHRASES,
      ∀ part ∈ (splitOnL tok (lowerL ("alter table learnings add column note text".toList))).drop 1,
        firstTokenL part ≠ []) ∧
    (executeScopedMigration [("learnings".toList)]
        ("alter table learnings add column note text".toList) =
          Except.error MigError.validation ↔
      (([("learnings".toList)] : List Str).length = 0 ∨
        (∃ t ∈ [("learnings".toList)], t ∉ ALLOWED_MIGRATION_TABLES) ∨
        (∃ w ∈ FORBIDDEN_PHRASES,
          containsSub w (lowerL ("alter table learnings add column note text".toList)) = true) ∨
        (∃ tok ∈ DDL_PHRASES,
          ∃ part ∈ (splitOnL tok (lowerL ("alter table learnings add column note text".toList))).drop 1,
            firstTokenL part ∉ ([("learnings".toList)] : List Str)))) :=
  ⟨by decide, claim4_migration_guard [("learnings".toList)]
    ("alter table learnings add column note text".toList) (by decide)⟩

end Aidam.MemoryPg

/-! ## Embedding of `src/scripts/on_prompt_submit.py`: the poll loop (C2) -/

namespace Aidam.OnPromptSubmit

/-- One `retrieval_inbox` reply as the poll loop sees it: `context_type` and
`context_text`. -/
structure Reply where
  ctxType : Str
  ctxText : Str

/-- The loop state of the poll in `main` (on_prompt_submit.py:125-128):
`results_collected`, `none_count`, `second_chance`, `remaining_polls`. -/
structure PollState where
  results : List Str
  noneCount : Nat
  secondChance : Bool
  remainingPolls : Int
deriving DecidableEq

def initPollState : PollState :=
  { results := [], noneCount := 0, secondChance := false, remainingPolls := 0 }

/-- Classification of one fetched row (on_prompt_submit.py:145-158): a
`none`-typed or empty-text reply bumps `none_count`, any other reply is
collected in arrival order. -/
def classifyRow (st : PollState) (r : Reply) : PollState :=
  if r.ctxType = ("none".toList) ∨ r.ctxText = [] then
    { st with noneCount := st.noneCount + 1 }
  else
    { st with results := st.results ++ [r.ctxText] }

def classifyRows (st : PollState) (rows : List Reply) : PollState :=
  rows.foldl classifyRow st

/-- The second-chance grant (on_prompt_submit.py:164-167): on the first
iteration with a collected real result and no grant yet, set
`second_chance = True` and `remaining_polls = 3`. -/
def graceGrant (st : PollState) : PollState :=
  if st.results ≠ [] ∧ st.secondChance = false then
    { st with secondChance := true, remainingPolls := 3 }
  else st

/-- The grace countdown (on_prompt_submit.py:169-172): decrement
`remaining_polls` and break when it reaches zero or two real results have
been collected.  The Bool is the break decision. -/
def graceCheck (st : PollState) : PollState × Bool :=
  if st.secondChance = true then
    let st2 := { st with remainingPolls := st.remainingPolls - 1 }
    (st2, decide (st2.remainingPolls ≤ 0) || decide (2 ≤ st2.results.length))
  else (st, false)

/-- One poll iteration once its rows are fetched (on_prompt_submit.py:131-172):
classify every row, then apply the termination rules in source order — the
two-`none` shortcut, the grant, the grace countdown. -/
def stepExit (st : PollState) (rows : List Reply) : PollState × Bool :=
  let st1 := classifyRows st rows
  if 2 ≤ st1.noneCount then (st1, true)
  else graceCheck (graceGrant st1)

/-- The poll loop over a schedule of per-iteration row batches; returns the
final state and the number of iterations executed. -/
def pollLoop : PollState → List (List Reply) → PollState × Nat
  | st, [] => (st, 0)
  | st, rows :: rest =>
      let r := stepExit st rows
      if r.2 then (r.1, 1)
      else
        let q := pollLoop r.1 rest
        (q.1, q.2 + 1)

/-- The retrieval poll of `main` (on_prompt_submit.py:129-172): at most the
14 half-second poll intervals. -/
def retrievePoll (sched : List (List Reply)) : PollState × Nat :=
  pollLoop initPollState (sched.take 14)

lemma pollLoop_iters_le :
    ∀ (l : List (List Reply)) (st : PollState), (pollLoop st l).2 ≤ l.length := by
  intro l
  induction l with
  | nil => intro st; simp [pollLoop]
  | cons rows rest ih =>
      intro st
      rw [pollLoop]
      by_cases hb : (stepExit st rows).2 = true
      · simp only [hb, if_true, List.length_cons]
        omega
      · simp only [Bool.not_eq_true] at hb
        simp only [hb, Bool.false_eq_true, if_false, List.length_cons]
        have := ih (stepExit st rows).1
        omega

lemma classifyRows_secondChance (st : PollState) (rows : List Reply) :
    (classifyRows st rows).secondChance = st.secondChance := by
  induction rows generalizing st with
  | nil => rfl
  | cons r rest ih =>
      rw [classifyRows, List.foldl_cons, ← classifyRows, ih]
      rw [classifyRow]
      split <;> rfl

/-- C2: the retrieval poll runs at most 14 iterations; once the first real
(non-`none`, non-empty) result has been collected with no grace window
granted before (and the two-`none` shortcut not triggered), a grace window
of `remaining_polls = 3` is granted; and during the grace window the
iteration breaks the loop exactly when the decremented remaining polls reach
zero or two real results have been collected. -/
theorem claim2_poll_second_chance :
    (∀ sched : List (List Reply), (retrievePoll sched).2 ≤ 14) ∧
    (∀ (st : PollState) (rows : List Reply),
      st.secondChance = false →
      (classifyRows st rows).noneCount < 2 →
      (classifyRows st rows).results ≠ [] →
      ((graceGrant (classifyRows st rows)).secondChance = true ∧
        (graceGrant (classifyRows st rows)).remainingPolls = 3 ∧
        stepExit st rows = graceCheck (graceGrant (classifyRows st rows)))) ∧
    (∀ (st : PollState) (rows : List Reply),
      (classifyRows st rows).noneCount < 2 →
      (graceGrant (classifyRows st rows)).secondChance = true →
      1 ≤ (graceGrant (classifyRows st rows)).remainingPolls →
      ((stepExit st rows).2 = true ↔
        ((stepExit st rows).1.remainingPolls = 0 ∨
          2 ≤ (stepExit st rows).1.results.length))) := by
  refine ⟨?_, ?_, ?_⟩
  · intro sched
    have h := pollLoop_iters_le (sched.take 14) initPollState
    have h2 : (sched.take 14).length ≤ 14 := by
      simp [List.length_take]
    exact le_trans h h2
  · intro st rows hsc hnone hres
    have hsc2 : (classifyRows st rows).secondChance = false := by
      rw [classifyRows_secondChance]; exact hsc
    have hgrant : graceGrant (classifyRows st rows) =
        { classifyRows st rows with secondChance := true, remainingPolls := 3 } := by
      rw [graceGrant, if_pos ⟨hres, hsc2⟩]
    refine ⟨by rw [hgrant], by rw [hgrant], ?_⟩
    rw [stepExit, if_neg (by omega)]
  · intro st rows hnone hsc hpolls
    have hstep : stepExit st rows = graceCheck (graceGrant (classifyRows st rows)) := by
      rw [stepExit, if_neg (by omega)]
    set g := graceGrant (classifyRows st rows) with hg
    have hcheck : graceCheck g =
        ({ g with remainingPolls := g.remainingPolls - 1 },
          decide (g.remainingPolls - 1 ≤ 0) ||
            decide (2 ≤ g.results.length)) := by
      rw [graceCheck, if_pos hsc]
    rw [hstep, hcheck]
    simp only [Bool.or_eq_true, decide_eq_true_eq]
    constructor
    · rintro (h | h)
      · left; omega
      · right; simpa using h
    · rintro (h | h)
      · left; omega
      · right; simpa using h

/-- State already inside the grace window used by the C2 witness. -/
def graceWitnessState : PollState :=
  { results := [['a']], noneCount := 0, secondChance := true, remainingPolls := 2 }

/-- Witness for C2: the bound at a one-batch schedule; the grant after a
single real reply from the initial state; and the in-grace break rule at
`graceWitnessState` with no new rows. -/
theorem claim2_poll_second_chance_witness :
    (retrievePoll [[Reply.mk ("memory".toList) ("ctx".toList)]]).2 ≤ 14 ∧
    ((graceGrant (classifyRows initPollState
        [Reply.mk ("memory".toList) ("ctx".toList)])).secondChance = true ∧
      (graceGrant (classifyRows initPollState
        [Reply.mk ("memory".toList) ("ctx".toList)])).remainingPolls = 3 ∧
      stepExit initPollState [Reply.mk ("memory".toList) ("ctx".toList)] =
        graceCheck (graceGrant (classifyRows initPollState
          [Reply.mk ("memory".toList) ("ctx".toList)]))) ∧
    ((stepExit graceWitnessState []).2 = true ↔
      ((stepExit graceWitnessState []).1.remainingPolls = 0 ∨
        2 ≤ (stepExit graceWitnessState []).1.results.length)) :=
  ⟨claim2_poll_second_chance.1 _,
   claim2_poll_second_chance.2.1 initPollState _ (by decide) (by decide) (by decide),
   claim2_poll_second_chance.2.2 graceWitnessState [] (by decide) (by decide)
     (by decide)⟩

end Aidam.OnPromptSubmit

/-! ## Embedding of `src/scripts/inject_state.py` (claims C1, C5) -/

namespace Aidam.InjectState

def MAX_CONTEXT_CHARS : Nat := 38000

/-- `"\n...(truncated)"` appended when the assembled context exceeds the cap
(inject_state.py:186-187). -/
def TRUNC_MARKER : Str := "\n...(truncated)".toList

/-- The marker prepended to a truncated raw tail (inject_state.py:178). -/
def TAIL_TRUNC_HEAD : Str := "...(truncated)...\n\n".toList

/-- `"## RECENT CONVERSATION TAIL\n"` (inject_state.py:179). -/
def TAIL_SECTION_HEAD : Str := "## RECENT CONVERSATION TAIL\n".toList

/-- The separator of `'\n\n'.join(parts)`. -/
def NL2 : Str := ['\n', '\n']

/-- The restoration header of the emitted additionalContext
(inject_state.py:193):
`[AIDAM Memory: context restored from previous session (v{version})]` plus a
blank line. -/
def versionHeader (version : Nat) : Str :=
  ("[AIDAM Memory: context restored from previous session (v".toList) ++
    (toString version).toList ++ (")]\n\n".toList)

/-- The raw-tail line filter (inject_state.py:173-175): drop every line
starting with `[TOOLS]` or `[TOOL_RESULTS]`, rejoin with newlines. -/
def filterToolLines (rawTail : Str) : Str :=
  joinSep ['\n'] ((splitOnL ['\n'] rawTail).filter
    (fun l => !(startsWithL l ("[TOOLS]".toList)) &&
      !(startsWithL l ("[TOOL_RESULTS]".toList))))

/-- The `parts` list assembled by `main` (inject_state.py:159-181):
the stored state text when nonempty, then — when a readable nonempty raw
tail exists and more than 1000 characters of budget remain — the filtered
tail, truncated from the beginning to the remaining budget. -/
def contextParts (stateText : Str) (rawTail : Option Str) : List Str :=
  let parts1 : List Str := if stateText = [] then [] else [stateText]
  let remaining : Int :=
    (MAX_CONTEXT_CHARS : Int) - ((joinSep NL2 parts1).length : Int) - 200
  match rawTail with
  | none => parts1
  | some rt =>
      if 1000 < remaining ∧ rt ≠ [] then
        let rt1 := filterToolLines rt
        let rt2 :=
          if remaining < (rt1.length : Int) then
            TAIL_TRUNC_HEAD ++ lastN remaining.toNat rt1
          else rt1
        parts1 ++ [TAIL_SECTION_HEAD ++ rt2]
      else parts1

/-- The context string of `main` (inject_state.py:183-187): join the parts
with blank lines, then cap at 38000 characters, appending the truncation
marker when the cap bites. -/
def buildContext (stateText : Str) (rawTail : Option Str) : Str :=
  let context0 := joinSep NL2 (contextParts stateText rawTail)
  if MAX_CONTEXT_CHARS < context0.length then
    context0.take MAX_CONTEXT_CHARS ++ TRUNC_MARKER
  else context0

/-- The `additionalContext` string printed inside the hookSpecificOutput JSON
(inject_state.py:190-195). -/
def additionalContext (stateText : Str) (rawTail : Option Str)
    (version : Nat) : Str :=
  versionHeader version ++ buildContext stateText rawTail

/-- C5 counterexample: a stored state of 38001 characters and no raw tail.
The printed additionalContext is the 38000-character cap PLUS the truncation
marker PLUS the restoration header — strictly more than 38000 characters. -/
theorem claim5_counterexample :
    38000 < (additionalContext (List.replicate 38001 'a') none 1).length := by
  have hne : (List.replicate 38001 'a' : Str) ≠ [] := by
    intro h
    have h2 := congrArg List.length h
    rw [List.length_replicate] at h2
    simp at h2
  have hcp : contextParts (List.replicate 38001 'a') none =
      [List.replicate 38001 'a'] := by
    simp only [contextParts, if_neg hne]
  have hbc : (buildContext (List.replicate 38001 'a') none).length = 38015 := by
    simp only [buildContext, hcp]
    have hj : joinSep NL2 [List.replicate 38001 'a'] =
        List.replicate 38001 'a' := rfl
    rw [hj]
    rw [if_pos (by rw [List.length_replicate]; decide)]
    rw [List.length_append, List.length_take, List.length_replicate]
    have hm : TRUNC_MARKER.length = 15 := by decide
    rw [hm]
    norm_num [MAX_CONTEXT_CHARS]
  rw [additionalContext, List.length_append, hbc]
  omega

/-- C5 amended: the context body is capped at 38000 characters plus the
15-character truncation marker, and the printed additionalContext adds
exactly the restoration header on top — so it is bounded by the header
length plus 38015 characters, not by 38000. -/
theorem claim5_context_cap (stateText : Str) (rawTail : Option Str)
    (version : Nat) :
    (buildContext stateText rawTail).length ≤
        MAX_CONTEXT_CHARS + TRUNC_MARKER.length ∧
      (additionalContext stateText rawTail version).length =
        (versionHeader version).length +
          (buildContext stateText rawTail).length := by
  constructor
  · rw [buildContext]
    set c0 := joinSep NL2 (contextParts stateText rawTail) with hc0
    by_cases h : MAX_CONTEXT_CHARS < c0.length
    · rw [if_pos h]
      rw [List.length_append, List.length_take]
      simp [TRUNC_MARKER, MAX_CONTEXT_CHARS]
    · rw [if_neg h]
      omega
  · rw [additionalContext, List.length_append]

end Aidam.InjectState

/-! ## `find_previous_session_id` under two concurrent injectors (claim C1) -/

namespace Aidam.InjectState

/-- Orchestrator status values (spec section 3). -/
inductive OStatus where
  | running | clearing | cleared | injected | stopped
deriving DecidableEq

structure OrchRow where
  sessionId : Str
  status : OStatus
  startedAt : Nat
deriving DecidableEq

/-- `status IN ('cleared', 'clearing')`. -/
def isConsumable (r : OrchRow) : Bool :=
  decide (r.status = OStatus.cleared) || decide (r.status = OStatus.clearing)

/-- The SELECT of `find_previous_session_id` (inject_state.py:70-76): the
newest (`ORDER BY started_at DESC LIMIT 1`) row with consumable status and a
session id different from the new session.  Ties keep the earlier row; the
inputs below use distinct timestamps. -/
def selectPrev (db : List OrchRow) (newSid : Str) : Option Str :=
  ((db.filter (fun r => isConsumable r && !(r.sessionId == newSid))).foldl
    (fun acc r =>
      match acc with
      | none => some r
      | some b => if b.startedAt < r.startedAt then some r else some b)
    none).map OrchRow.sessionId

/-- The UPDATE of `find_previous_session_id` (inject_state.py:81-84): set
`status = 'injected'` where the session id matches and the status is still
consumable.  The code returns the previously selected id REGARDLESS of how
many rows this update touched (the row count is never checked). -/
def updateInjected (db : List OrchRow) (sid : Str) : List OrchRow :=
  db.map (fun r =>
    if r.sessionId == sid && isConsumable r then
      { r with status := OStatus.injected }
    else r)

/-- Program counter of one injector running `find_previous_session_id`:
before the SELECT, between SELECT and UPDATE (holding the fetched id), and
returned. -/
inductive Phase where
  | start : Phase
  | selected : Option Str → Phase
  | done : Option Str → Phase
deriving DecidableEq

/-- One database statement of one injector.  The SELECT and the UPDATE are
separate atomic statements against the shared database: under READ COMMITTED
each statement sees the latest committed state, and the UPDATE commits
immediately (inject_state.py:85 `conn.commit()`). -/
def stepProc (db : List OrchRow) (newSid : Str) :
    Phase → List OrchRow × Phase
  | Phase.start => (db, Phase.selected (selectPrev db newSid))
  | Phase.selected none => (db, Phase.done none)
  | Phase.selected (some prev) =>
      (updateInjected db prev, Phase.done (some prev))
  | Phase.done r => (db, Phase.done r)

/-- Two injector processes for distinct new sessions over the shared
orchestrator table; a schedule entry `true` steps the first process. -/
structure Sys where
  db : List OrchRow
  sid1 : Str
  sid2 : Str
  p1 : Phase
  p2 : Phase
deriving DecidableEq

def stepSys (s : Sys) (first : Bool) : Sys :=
  if first then
    let r := stepProc s.db s.sid1 s.p1
    { s with db := r.1, p1 := r.2 }
  else
    let r := stepProc s.db s.sid2 s.p2
    { s with db := r.1, p2 := r.2 }

def runSys (s : Sys) : List Bool → Sys
  | [] => s
  | b :: rest => runSys (stepSys s b) rest

/-- Two orchestrator rows, both `cleared`, session A newer than session B. -/
def dbDoubleCleared : List OrchRow :=
  [{ sessionId := "A".toList, status := OStatus.cleared, startedAt := 10 },
   { sessionId := "B".toList, status := OStatus.cleared, startedAt := 5 }]

/-- Both injectors start before either has consumed. -/
def initRace : Sys :=
  { db := dbDoubleCleared, sid1 := "N1".toList, sid2 := "N2".toList,
    p1 := Phase.start, p2 := Phase.start }

/-- C1 failing run: under the interleaving SELECT₁, SELECT₂, UPDATE₁, UPDATE₂
— legal under READ COMMITTED because the SELECT and the UPDATE are separate
committed statements — BOTH injectors return the same previous session `A`,
and row `B` is never consumed.  The `cleared → injected` status transition
itself still happens at most once (the second UPDATE matches no row), but the
hand-off is not exclusive: the code never checks the UPDATE's row count, so
the claimed distinctness of the returned ids fails. -/
theorem claim1_duplicate_handoff :
    (runSys initRace [true, false, true, false]).p1 =
        Phase.done (some ("A".toList)) ∧
      (runSys initRace [true, false, true, false]).p2 =
        Phase.done (some ("A".toList)) ∧
      (runSys initRace [true, false, true, false]).db =
        [{ sessionId := "A".toList, status := OStatus.injected, startedAt := 10 },
         { sessionId := "B".toList, status := OStatus.cleared, startedAt := 5 }] := by
  decide

end Aidam.InjectState

/-! ## Embedding of `src/scripts/emergency_compact.py` (claim C8) -/

namespace Aidam.EmergencyCompact

structure SessionStateRow where
  sessionId : Str
  version : Nat
  stateText : Str
deriving DecidableEq

/-- The DB insert of `main` (emergency_compact.py:165-168):
`INSERT INTO session_state (..., version) VALUES (..., 1)` — the version is
the literal `1`, independent of existing rows. -/
def emergencySave (db : List SessionStateRow) (sessionId stateText : Str) :
    List SessionStateRow :=
  db ++ [{ sessionId := sessionId, version := 1, stateText := stateText }]

/-- Highest stored version for a session, `0` when the session has none. -/
def maxVersion (db : List SessionStateRow) (sessionId : Str) : Nat :=
  (db.filter (fun r => r.sessionId == sessionId)).foldl
    (fun m r => max m r.version) 0

/-- Modelled from the spec: `saveState` "inserts a row with the next
`version` for that session" (spec section 4.4); the agent-side writer that
implements this is not under src/. -/
def specNextVersion (db : List SessionStateRow) (sessionId : Str) : Nat :=
  maxVersion db sessionId + 1

/-- An existing version-3 checkpoint for session `S`. -/
def priorRow : SessionStateRow :=
  { sessionId := "S".toList, version := 3, stateText := "old".toList }

/-- C8 counterexample: with a version-3 row already stored for the session,
the emergency compactor still inserts version 1, not the next version 4. -/
theorem claim8_counterexample :
    emergencySave [priorRow] ("S".toList) ("new".toList) =
      [priorRow,
       { sessionId := "S".toList, version := 1, stateText := "new".toList }] ∧
    specNextVersion [priorRow] ("S".toList) = 4 ∧ (1 : Nat) ≠ 4 := by
  decide

/-- C8 amended: the emergency compactor always appends a row with version 1,
whatever rows exist; this coincides with the claimed "next version" exactly
when the session has no stored rows. -/
theorem claim8_emergency_version_always_one (db : List SessionStateRow)
    (sessionId stateText : Str) :
    emergencySave db sessionId stateText =
      db ++ [{ sessionId := sessionId, version := 1, stateText := stateText }] ∧
    (db.filter (fun r => r.sessionId == sessionId) = [] →
      (1 : Nat) = specNextVersion db sessionId) := by
  refine ⟨rfl, ?_⟩
  intro h
  rw [specNextVersion, maxVersion, h]
  rfl

/-- Witness for C8 amended at the empty database. -/
theorem claim8_emergency_version_witness :
    (emergencySave [] ("S".toList) ("new".toList) =
      [{ sessionId := "S".toList, version := 1, stateText := "new".toList }]) ∧
    (([] : List SessionStateRow).filter (fun r => r.sessionId == ("S".toList)) = []) ∧
    (1 : Nat) = specNextVersion [] ("S".toList) :=
  ⟨(claim8_emergency_version_always_one [] ("S".toList) ("new".toList)).1,
   by decide,
   (claim8_emergency_version_always_one [] ("S".toList) ("new".toList)).2 (by decide)⟩

end Aidam.EmergencyCompact

/-! ## Embedding of `src/mcp/aidam_mcp_server.py`: tool registration (C3) -/

namespace Aidam.AidamServer

structure GeneratedTool where
  name : Str
  description : Str
  filePath : Str
  language : Str
deriving DecidableEq

/-- `os.path.expanduser("~/.claude/generated_tools")` for the model home
`/home/user`. -/
def GENERATED_TOOLS_ROOT : Str := "/home/user/.claude/generated_tools".toList

/-- `os.path.isabs` for the POSIX-style paths of the model. -/
def isAbsPath (p : Str) : Bool := startsWithL p ("/".toList)

/-- `os.path.join(root, rel)` for a relative `rel`. -/
def joinUnderRoot (root rel : Str) : Str := root ++ '/' :: rel

/-- The generated_tools upsert `ON CONFLICT (name) DO UPDATE`
(aidam_mcp_server.py:466-474). -/
def upsertTool (db : List GeneratedTool) (t : GeneratedTool) :
    List GeneratedTool :=
  if db.any (fun r => r.name == t.name) then
    db.map (fun r => if r.name == t.name then t else r)
  else db ++ [t]

/-- The `aidam_create_tool` handler (aidam_mcp_server.py:442-492), abstracted
over the filesystem: `realpath` models `os.path.realpath` and `fsExists`
models `os.path.exists`.  The security check is the code's literal
`real_path.startswith(allowed_dir)` — the canonical root WITHOUT a trailing
separator.  `.error` performs no database change; the stored row keeps the
resolved real path (the `os.path.relpath` bookkeeping is immaterial to the
claims).  `aidam_use_tool` (aidam_mcp_server.py:509-520) runs the same
prefix check before executing and updating usage counters. -/
def createTool (realpath : Str → Str) (fsExists : Str → Bool)
    (db : List GeneratedTool) (name description filePath language : Str) :
    Except Str (List GeneratedTool) :=
  let fp := if isAbsPath filePath then filePath
            else joinUnderRoot GENERATED_TOOLS_ROOT filePath
  let allowedDir := realpath GENERATED_TOOLS_ROOT
  let realPath := realpath fp
  if !(startsWithL realPath allowedDir) then
    Except.error ("Security: script must be under the tool root".toList)
  else if !(fsExists realPath) then
    Except.error ("Script file not found".toList)
  else
    Except.ok (upsertTool db
      { name := name, description := description, filePath := realPath,
        language := language })

/-- A filesystem without symbolic links: canonicalization is the identity on
the already-canonical absolute paths used below. -/
def idRealpath : Str → Str := fun p => p

/-- A sibling directory whose name extends the tool root's name. -/
def evilPath : Str := "/home/user/.claude/generated_toolsEVIL/x.sh".toList

/-- The row the handler stores for the escape path. -/
def evilRow : GeneratedTool :=
  { name := "t".toList, description := "d".toList, filePath := evilPath,
    language := "bash".toList }

/-- C3 failing run: `evilPath` is canonical, exists, and does NOT lie under
the canonical tool root followed by a path separator — yet `aidam_create_tool`
accepts it and inserts a generated_tools row, because the check compares
against the root without its trailing separator. -/
theorem claim3_path_escape_accepted :
    createTool idRealpath (fun _ => true) [] ("t".toList) ("d".toList)
        evilPath ("bash".toList) = Except.ok [evilRow] ∧
    startsWithL (idRealpath evilPath)
      (idRealpath GENERATED_TOOLS_ROOT ++ ['/']) = false := by
  decide

end Aidam.AidamServer
